import Mathlib

/-
Verification of the virtual-to-physical address resolver in
bmks/swapnil_scripts/check_mapping.c.

The C function virtual_to_physical_address(virt_addr) opens
/proc/self/pagemap, seeks to (virt_addr / getpagesize()) * 8, reads 8
bytes one at a time with getc, assembles them into a 64-bit value with a
host-endianness correction, and either computes a physical address (bit
63 set) or prints a message and returns the raw value (bit 63 clear).
All failure paths (fopen failure, fseek failure, EOF before 8 bytes)
return 0.

The shallow embedding below represents the runtime environment (the
pagemap pseudo-file contents, fseek success, the page size returned by
getpagesize and sysconf, and the host endianness detected by the
is_bigendian macro) as an explicit structure, and the observable side
effects (printf output, the fseek call, each getc, fclose) as an event
trace returned next to the uintptr_t return value.  Machine integers are
Nat with explicit reduction modulo 2 ^ 64 where the 64-bit arithmetic
can wrap.
-/

/-- PAGEMAP_ENTRY from check_mapping.c line 16: each pagemap record is 8
bytes. -/
def PAGEMAP_ENTRY : Nat := 8

/-- One step of the accumulation loop at line 81 of check_mapping.c,
read_val = (read_val << 8) + c_buf i, performed on a 64-bit uintptr_t,
so both the shift and the addition reduce modulo 2 ^ 64. -/
def assembleStep (acc c : Nat) : Nat := (acc <<< 8 % 2 ^ 64 + c) % 2 ^ 64

/-- The c_buf array after the read loop at lines 60 to 77 of
check_mapping.c: on a big-endian host byte i of the file goes to
c_buf i, on a little-endian host it goes to c_buf (7 - i), so c_buf
is the file bytes as read or reversed. -/
def c_buf (bigendian : Bool) (bytes : List Nat) : List Nat :=
  if bigendian then bytes else bytes.reverse

/-- The assembled 64-bit read_val after the loop at lines 79 to 82 of
check_mapping.c: fold the endianness-corrected buffer most-significant
byte first. -/
def assembleVal (bigendian : Bool) (bytes : List Nat) : Nat :=
  (c_buf bigendian bytes).foldl assembleStep 0

/-- The decoded pagemap record of the spec (section 4.1): the present
flag and the page frame number. -/
structure PageMapRecord where
  present : Bool
  page_frame_number : Nat
deriving DecidableEq, Repr

/-- The pure decoder for one 8-byte pagemap record, from lines 85 and 86
of check_mapping.c: bit 63 of the assembled value is the present flag
and the low 55 bits (mask (1 << 55) - 1) are the page frame number. -/
def decode (bigendian : Bool) (bytes : List Nat) : PageMapRecord :=
  { present := assembleVal bigendian bytes &&& 1 <<< 63 != 0
  , page_frame_number := assembleVal bigendian bytes &&& (1 <<< 55 - 1) }

/-- Observable side effects of one call of virtual_to_physical_address:
the printf calls, the fopen success, the fseek call with its offset,
each getc result, and fclose. -/
inductive Event where
  | fopened : Event
  | printed : String → Event
  | sought : Nat → Event
  | gotByte : Nat → Event
  | gotEOF : Event
  | fclosed : Event
deriving DecidableEq, Repr

/-- The message printed at line 45 of check_mapping.c when fopen fails. -/
def openFailMsg : String := "Error! Cannot open /proc/self/pagemap. Please, run as root."

/-- The message printed at line 54 of check_mapping.c when fseek fails. -/
def seekFailMsg : String := "Error! Cannot seek in /proc/self/pagemap."

/-- The message printed at line 92 of check_mapping.c when bit 63 is
clear. -/
def notPresentMsg : String := "Page not present"

/-- The runtime environment of one virtual_to_physical_address call:
the pagemap pseudo-file contents (none when fopen fails), whether fseek
to a given offset succeeds, the page size returned by getpagesize and
sysconf(_SC_PAGESIZE), and the host endianness from the is_bigendian
macro at line 30 of check_mapping.c. -/
structure Env where
  pagemapFile : Option (List Nat)
  seekOk : Nat → Bool
  pageSize : Nat
  bigEndian : Bool

/-- The file offset computed at line 49 of check_mapping.c,
virt_addr / getpagesize() * PAGEMAP_ENTRY, on a 64-bit uintptr_t. -/
def fileOffset (env : Env) (virt_addr : Nat) : Nat :=
  virt_addr / env.pageSize * PAGEMAP_ENTRY % 2 ^ 64

/-- The bytes the getc loop at lines 60 to 77 obtains after seeking to
off: the file bytes from position off, at most PAGEMAP_ENTRY of them
(fewer when the file ends first, in which case getc returns EOF). -/
def bytesAt (f : List Nat) (off : Nat) : List Nat :=
  (f.drop off).take PAGEMAP_ENTRY

/-- Shallow embedding of virtual_to_physical_address from
check_mapping.c lines 32 to 98.  Returns the uintptr_t return value and
the trace of observable events, path by path:
fopen failure (lines 42 to 47) prints and returns 0; fseek failure
(lines 51 to 58) prints, closes and returns 0; EOF before 8 bytes
(lines 62 to 67) closes and returns 0; bit 63 set (lines 85 to 90)
masks the low 55 bits, multiplies by the page size and ors in the
in-page offset; bit 63 clear (lines 91 to 93) prints Page not present
and returns the raw assembled value.  fclose at line 95 ends the two
successful-read paths. -/
def virtual_to_physical_address (env : Env) (virt_addr : Nat) : Nat × List Event :=
  match env.pagemapFile with
  | none => (0, [Event.printed openFailMsg])
  | some f =>
    if env.seekOk (fileOffset env virt_addr) then
      if fileOffset env virt_addr + PAGEMAP_ENTRY ≤ f.length then
        if assembleVal env.bigEndian (bytesAt f (fileOffset env virt_addr)) &&& 1 <<< 63 != 0 then
          (((assembleVal env.bigEndian (bytesAt f (fileOffset env virt_addr)) &&& (1 <<< 55 - 1))
              * env.pageSize % 2 ^ 64)
            ||| (virt_addr &&& (env.pageSize - 1)),
           [Event.fopened, Event.sought (fileOffset env virt_addr)]
             ++ (bytesAt f (fileOffset env virt_addr)).map Event.gotByte
             ++ [Event.fclosed])
        else
          (assembleVal env.bigEndian (bytesAt f (fileOffset env virt_addr)),
           [Event.fopened, Event.sought (fileOffset env virt_addr)]
             ++ (bytesAt f (fileOffset env virt_addr)).map Event.gotByte
             ++ [Event.printed notPresentMsg, Event.fclosed])
      else
        (0, [Event.fopened, Event.sought (fileOffset env virt_addr)]
             ++ (bytesAt f (fileOffset env virt_addr)).map Event.gotByte
             ++ [Event.gotEOF, Event.fclosed])
    else
      (0, [Event.fopened, Event.sought (fileOffset env virt_addr), Event.printed seekFailMsg,
           Event.fclosed])

/-- Whether an event is a getc that returned a byte. -/
def isGotByte : Event → Bool
  | Event.gotByte _ => true
  | _ => false

/-- Exit status of the main driver of check_mapping.c: either a regular
exit with a code (return from main) or an abort raised by a failed
assert. -/
inductive DriverExit where
  | exited : Nat → DriverExit
  | aborted : DriverExit
deriving DecidableEq, Repr

/-- Shallow embedding of the read loop of main, check_mapping.c lines
106 to 113.  The input list holds the successive values that
scanf %lx parses from the text stream (hexadecimal virtual addresses);
exhausting the list models end-of-input, where scanf returns EOF, the
ret == 1 assert at line 109 fails, and the process aborts.  Otherwise
the loop stores the value in addr, resolves and prints it (output not
modelled here, it does not affect control flow), and continues while
addr > 0; main returns 0 once a zero value has been processed. -/
def driverLoop : List Nat → DriverExit
  | [] => DriverExit.aborted
  | v :: rest => if v = 0 then DriverExit.exited 0 else driverLoop rest

/-- Reference big-endian value of a byte string, byte 0 most
significant: the plain (unbounded) most-significant-first fold. -/
def beValue (bytes : List Nat) : Nat :=
  bytes.foldl (fun acc c => acc * 256 + c) 0

/-- The raw record 0x8000000000000001 in little-endian file order. -/
def rawC2 : List Nat := [0x01, 0, 0, 0, 0, 0, 0, 0x80]

/-- The all-zero 8-byte record. -/
def zeroRec : List Nat := [0, 0, 0, 0, 0, 0, 0, 0]

/-- An environment whose pagemap file holds one all-zero record. -/
def envZeroRecord : Env :=
  { pagemapFile := some zeroRec, seekOk := fun _ => true, pageSize := 4096, bigEndian := false }

/-- An 8-byte record with all bytes distinct. -/
def rawC4 : List Nat := [0x12, 0x34, 0x56, 0x78, 0x9A, 0xBC, 0xDE, 0xF0]

/-- The record 0x8000000000000123 (present, frame 0x123) in
little-endian file order. -/
def recC1 : List Nat := [0x23, 0x01, 0, 0, 0, 0, 0, 0x80]

/-- A pagemap file whose record for virtual page 0x456 (offset 8880) is
recC1. -/
def fileC1 : List Nat := List.replicate 8880 0 ++ recC1

/-- Little-endian environment with 4096-byte pages over fileC1. -/
def envC1 : Env :=
  { pagemapFile := some fileC1, seekOk := fun _ => true, pageSize := 4096, bigEndian := false }

/-- A non-resident record with nonzero low bits (for instance swap
metadata), value 0x2A, in little-endian file order. -/
def swapRec : List Nat := [0x2A, 0, 0, 0, 0, 0, 0, 0]

/-- Little-endian environment with 4096-byte pages over swapRec. -/
def envSwapRecord : Env :=
  { pagemapFile := some swapRec, seekOk := fun _ => true, pageSize := 4096, bigEndian := false }

/-- A present record with frame number 0, value 0x8000000000000000, in
little-endian file order. -/
def presentZeroRec : List Nat := [0, 0, 0, 0, 0, 0, 0, 0x80]

/-- Little-endian environment with 4096-byte pages over
presentZeroRec. -/
def envPresentZero : Env :=
  { pagemapFile := some presentZeroRec, seekOk := fun _ => true, pageSize := 4096,
    bigEndian := false }

/-- An environment whose pagemap file cannot be opened. -/
def envOpenFail : Env :=
  { pagemapFile := none, seekOk := fun _ => true, pageSize := 4096, bigEndian := false }

/-- A pagemap file of only 3 bytes: the getc loop hits EOF before 8
bytes are read. -/
def shortFile : List Nat := [0, 0, 0]

/-- Little-endian environment with 4096-byte pages over the 3-byte
file. -/
def envShortFile : Env :=
  { pagemapFile := some shortFile, seekOk := fun _ => true, pageSize := 4096,
    bigEndian := false }

/-- 1 <<< 63 is 2 ^ 63. -/
theorem one_shiftLeft_63 : (1 <<< 63 : Nat) = 2 ^ 63 := by
  rw [Nat.shiftLeft_eq, one_mul]

/-- 1 <<< 55 is 2 ^ 55. -/
theorem one_shiftLeft_55 : (1 <<< 55 : Nat) = 2 ^ 55 := by
  rw [Nat.shiftLeft_eq, one_mul]

/-- Testing a single bit with a mask: x &&& 2 ^ i is nonzero exactly
when bit i of x is set. -/
theorem and_two_pow_ne_zero (x i : Nat) : x &&& 2 ^ i ≠ 0 ↔ x.testBit i = true := by
  rw [Nat.and_two_pow]
  cases h : x.testBit i <;> simp [h]

/-- The fopen-failure path of virtual_to_physical_address, lines 42 to
47 of check_mapping.c: print the run-as-root message and return 0. -/
theorem resolveOpenFail_eq (env : Env) (virt : Nat) (hf : env.pagemapFile = none) :
    virtual_to_physical_address env virt = (0, [Event.printed openFailMsg]) := by
  simp only [virtual_to_physical_address, hf]

/-- The fseek-failure path, lines 51 to 58 of check_mapping.c: print,
close and return 0. -/
theorem resolveSeekFail_eq (env : Env) (virt : Nat) (f : List Nat)
    (hf : env.pagemapFile = some f)
    (hs : env.seekOk (fileOffset env virt) = false) :
    virtual_to_physical_address env virt =
      (0, [Event.fopened, Event.sought (fileOffset env virt), Event.printed seekFailMsg,
           Event.fclosed]) := by
  simp only [virtual_to_physical_address, hf, hs]
  rfl

/-- The EOF path, lines 62 to 67 of check_mapping.c: getc hits EOF
before 8 bytes are read, the file is closed and 0 returned. -/
theorem resolveEOF_eq (env : Env) (virt : Nat) (f : List Nat)
    (hf : env.pagemapFile = some f)
    (hs : env.seekOk (fileOffset env virt) = true)
    (hlen : f.length < fileOffset env virt + PAGEMAP_ENTRY) :
    virtual_to_physical_address env virt =
      (0, [Event.fopened, Event.sought (fileOffset env virt)]
            ++ (bytesAt f (fileOffset env virt)).map Event.gotByte
            ++ [Event.gotEOF, Event.fclosed]) := by
  simp only [virtual_to_physical_address, hf, hs, if_true]
  rw [if_neg (by omega)]

/-- The page-present path, lines 85 to 90 of check_mapping.c: the low
55 bits of the assembled value are multiplied by the page size (64-bit
wrap) and ored with the in-page offset of the virtual address. -/
theorem resolvePresent_eq (env : Env) (virt : Nat) (f : List Nat)
    (hf : env.pagemapFile = some f)
    (hs : env.seekOk (fileOffset env virt) = true)
    (hlen : fileOffset env virt + PAGEMAP_ENTRY ≤ f.length)
    (hp : (decode env.bigEndian (bytesAt f (fileOffset env virt))).present = true) :
    virtual_to_physical_address env virt =
      (((decode env.bigEndian (bytesAt f (fileOffset env virt))).page_frame_number
          * env.pageSize % 2 ^ 64)
        ||| (virt &&& (env.pageSize - 1)),
       [Event.fopened, Event.sought (fileOffset env virt)]
         ++ (bytesAt f (fileOffset env virt)).map Event.gotByte
         ++ [Event.fclosed]) := by
  simp only [decode] at hp
  simp only [virtual_to_physical_address, hf, hs, if_true, if_pos hlen, hp, decode]

/-- The page-not-present path, lines 91 to 93 of check_mapping.c: print
the message and return the raw assembled value unchanged. -/
theorem resolveNotPresent_eq (env : Env) (virt : Nat) (f : List Nat)
    (hf : env.pagemapFile = some f)
    (hs : env.seekOk (fileOffset env virt) = true)
    (hlen : fileOffset env virt + PAGEMAP_ENTRY ≤ f.length)
    (hp : (decode env.bigEndian (bytesAt f (fileOffset env virt))).present = false) :
    virtual_to_physical_address env virt =
      (assembleVal env.bigEndian (bytesAt f (fileOffset env virt)),
       [Event.fopened, Event.sought (fileOffset env virt)]
         ++ (bytesAt f (fileOffset env virt)).map Event.gotByte
         ++ [Event.printed notPresentMsg, Event.fclosed]) := by
  simp only [decode] at hp
  simp only [virtual_to_physical_address, hf, hs, if_true, if_pos hlen, hp]
  rfl

/-- For at most 8 bytes below 256 and a small enough accumulator, the
64-bit accumulation loop never wraps, so it agrees with the plain
unbounded most-significant-first fold. -/
theorem foldl_assembleStep_eq (bytes : List Nat) :
    ∀ acc : Nat, bytes.length ≤ 8 → (∀ b ∈ bytes, b < 256) →
      acc < 2 ^ (8 * (8 - bytes.length)) →
      bytes.foldl assembleStep acc = bytes.foldl (fun a c => a * 256 + c) acc := by
  induction bytes with
  | nil => intro acc _ _ _; rfl
  | cons b bs ih =>
    intro acc hlen hb hacc
    have hb0 : b < 256 := hb b (List.mem_cons_self b bs)
    simp only [List.length_cons] at hlen hacc
    have hlen' : bs.length ≤ 8 := by omega
    have hkey : acc * 256 + b < 2 ^ (8 * (8 - bs.length)) := by
      have h2 : (acc + 1) * 256 ≤ 2 ^ (8 * (8 - (bs.length + 1))) * 256 :=
        Nat.mul_le_mul_right 256 hacc
      have h3 : 2 ^ (8 * (8 - (bs.length + 1))) * 256 ≤ 2 ^ (8 * (8 - bs.length)) := by
        rw [show (256 : Nat) = 2 ^ 8 from rfl, ← pow_add]
        exact Nat.pow_le_pow_right (by norm_num) (by omega)
      omega
    have h64 : acc * 256 + b < 2 ^ 64 :=
      lt_of_lt_of_le hkey (Nat.pow_le_pow_right (by norm_num) (by omega))
    have hstep : assembleStep acc b = acc * 256 + b := by
      have e1 : acc <<< 8 = acc * 256 := by rw [Nat.shiftLeft_eq]
      calc (acc <<< 8 % 2 ^ 64 + b) % 2 ^ 64
          = (acc * 256 % 2 ^ 64 + b) % 2 ^ 64 := by rw [e1]
        _ = (acc * 256 + b) % 2 ^ 64 := by
              rw [Nat.mod_eq_of_lt (show acc * 256 < 2 ^ 64 by omega)]
        _ = acc * 256 + b := Nat.mod_eq_of_lt h64
    simp only [List.foldl_cons]
    rw [hstep]
    exact ih (acc * 256 + b) hlen' (fun x hx => hb x (List.mem_cons_of_mem b hx)) hkey

/-- The plain most-significant-first fold is zero exactly when the
accumulator and every byte are zero. -/
theorem foldl_be_eq_zero (bytes : List Nat) :
    ∀ acc : Nat,
      (bytes.foldl (fun a c => a * 256 + c) acc = 0 ↔ (acc = 0 ∧ ∀ b ∈ bytes, b = 0)) := by
  induction bytes with
  | nil => intro acc; simp
  | cons b bs ih =>
    intro acc
    rw [List.foldl_cons, ih]
    simp only [List.mem_cons]
    constructor
    · rintro ⟨h1, h2⟩
      refine ⟨by omega, ?_⟩
      rintro x (rfl | hx)
      · omega
      · exact h2 x hx
    · rintro ⟨h1, h2⟩
      have hbz := h2 b (Or.inl rfl)
      exact ⟨by omega, fun x hx => h2 x (Or.inr hx)⟩

/-- C2: for every 8-byte raw input whose assembled 64-bit value has bit
63 set, the decode step yields present true and a page frame number
equal to the assembled value masked with 0x007FFFFFFFFFFFFF (the low 55
bits). -/
theorem decode_present_pfn (be : Bool) (bytes : List Nat)
    (_hlen : bytes.length = PAGEMAP_ENTRY)
    (hbit : (assembleVal be bytes).testBit 63 = true) :
    (decode be bytes).present = true ∧
    (decode be bytes).page_frame_number = assembleVal be bytes &&& 0x007FFFFFFFFFFFFF := by
  constructor
  · have h := (and_two_pow_ne_zero (assembleVal be bytes) 63).mpr hbit
    simp only [decode, one_shiftLeft_63]
    simpa using h
  · simp only [decode, one_shiftLeft_55]
    norm_num

/-- Witness for C2: the raw record 0x8000000000000001 decodes to
present true with page frame number 1. -/
theorem decode_present_pfn_witness :
    (decode false rawC2).present = true ∧ (decode false rawC2).page_frame_number = 1 := by
  have h := decode_present_pfn false rawC2 (by decide) (by decide)
  exact ⟨h.1, by rw [h.2]; decide⟩

/-- C3: for every 8-byte raw input whose assembled 64-bit value has bit
63 clear, the decode step yields present false regardless of the other
63 bits, and on that record the resolver reports the page as not
present (the Page not present message) rather than computing a resident
physical address. -/
theorem decode_not_present_reported (be : Bool) (bytes : List Nat)
    (_hlen : bytes.length = PAGEMAP_ENTRY)
    (hbit : (assembleVal be bytes).testBit 63 = false) :
    (decode be bytes).present = false ∧
    ∀ (env : Env) (virt : Nat) (f : List Nat),
      env.pagemapFile = some f →
      env.seekOk (fileOffset env virt) = true →
      fileOffset env virt + PAGEMAP_ENTRY ≤ f.length →
      bytesAt f (fileOffset env virt) = bytes →
      env.bigEndian = be →
      Event.printed notPresentMsg ∈ (virtual_to_physical_address env virt).2 := by
  have hz : assembleVal be bytes &&& 2 ^ 63 = 0 := by
    have h := and_two_pow_ne_zero (assembleVal be bytes) 63
    rw [hbit] at h
    simpa using h
  have hp : (decode be bytes).present = false := by
    simp only [decode, one_shiftLeft_63]
    rw [hz]
    decide
  refine ⟨hp, ?_⟩
  intro env virt f hf hs hlen hb hbe
  rw [resolveNotPresent_eq env virt f hf hs hlen (by rw [hb, hbe]; exact hp)]
  simp

/-- Witness for C3: the all-zero record decodes to present false and
the resolver prints Page not present for it. -/
theorem decode_not_present_reported_witness :
    (decode false zeroRec).present = false ∧
    Event.printed notPresentMsg ∈ (virtual_to_physical_address envZeroRecord 0).2 := by
  have h := decode_not_present_reported false zeroRec (by decide) (by decide)
  exact ⟨h.1, h.2 envZeroRecord 0 zeroRec rfl rfl (by decide) (by decide) rfl⟩

/-- C4: the decoder performs an explicit host-endianness correction:
on a big-endian host the assembled value reads byte 0 as most
significant (it is the plain most-significant-first value of the byte
string), on a little-endian host byte 7 is most significant (the value
of the reversed byte string), and decoding the same logical 64-bit
value expressed in either byte order, after correction, yields an
identical decoded record. -/
theorem decode_endianness (bytes : List Nat)
    (hlen : bytes.length = PAGEMAP_ENTRY) (hb : ∀ b ∈ bytes, b < 256) :
    assembleVal true bytes = beValue bytes ∧
    assembleVal false bytes = beValue bytes.reverse ∧
    decode true bytes = decode false bytes.reverse := by
  have h8 : bytes.length ≤ 8 := by rw [hlen]; decide
  have hz : (0 : Nat) < 2 ^ (8 * (8 - bytes.length)) := by positivity
  refine ⟨?_, ?_, ?_⟩
  · rw [assembleVal, beValue, c_buf, if_pos rfl]
    exact foldl_assembleStep_eq bytes 0 h8 hb hz
  · rw [assembleVal, beValue, c_buf]
    simp only [Bool.false_eq_true, if_false]
    refine foldl_assembleStep_eq bytes.reverse 0 (by simpa using h8)
      (fun x hx => hb x (List.mem_reverse.mp hx)) ?_
    positivity
  · simp [decode, assembleVal, c_buf, List.reverse_reverse]

/-- Witness for C4: on a big-endian host the record assembles with byte
0 most significant, and the reversed byte order decodes to the same
record on a little-endian host. -/
theorem decode_endianness_witness :
    assembleVal true rawC4 = 0x123456789ABCDEF0 ∧
    decode true rawC4 = decode false rawC4.reverse := by
  have h := decode_endianness rawC4 (by decide) (by decide)
  exact ⟨by rw [h.1]; decide, h.2.2⟩

/-- Membership in the endianness-corrected buffer is membership in the
raw bytes. -/
theorem mem_c_buf (be : Bool) (bytes : List Nat) (x : Nat) :
    x ∈ c_buf be bytes ↔ x ∈ bytes := by
  cases be <;> simp [c_buf]

/-- The endianness correction preserves the byte count. -/
theorem length_c_buf (be : Bool) (bytes : List Nat) :
    (c_buf be bytes).length = bytes.length := by
  cases be <;> simp [c_buf]

/-- The getc loop yields at most 8 bytes. -/
theorem bytesAt_length_le (f : List Nat) (off : Nat) : (bytesAt f off).length ≤ 8 := by
  rw [bytesAt]
  simp only [List.length_take, PAGEMAP_ENTRY]
  omega

/-- For a record of at most 8 bytes below 256 the assembled value is
zero exactly when every byte is zero. -/
theorem assembleVal_eq_zero_iff (be : Bool) (bytes : List Nat)
    (hlen : bytes.length ≤ 8) (hb : ∀ b ∈ bytes, b < 256) :
    assembleVal be bytes = 0 ↔ ∀ b ∈ bytes, b = 0 := by
  rw [assembleVal,
    foldl_assembleStep_eq (c_buf be bytes) 0 (by rw [length_c_buf]; exact hlen)
      (fun x hx => hb x ((mem_c_buf be bytes x).mp hx)) (by positivity),
    foldl_be_eq_zero]
  constructor
  · rintro ⟨-, h2⟩
    exact fun b hbm => h2 b ((mem_c_buf be bytes b).mpr hbm)
  · intro h
    exact ⟨rfl, fun b hbm => h b ((mem_c_buf be bytes b).mp hbm)⟩

/-- C1: on the page-present path the returned physical address is the
page frame number times the page size (64-bit product) ored with the
in-page offset of the virtual address; whenever the product fits in 64
bits this is exactly page_frame_number * page_size |||
(virtual_address &&& (page_size - 1)). -/
theorem resident_physical_address_correct (env : Env) (virt : Nat) (f : List Nat)
    (hf : env.pagemapFile = some f)
    (hs : env.seekOk (fileOffset env virt) = true)
    (hlen : fileOffset env virt + PAGEMAP_ENTRY ≤ f.length)
    (hp : (decode env.bigEndian (bytesAt f (fileOffset env virt))).present = true) :
    (virtual_to_physical_address env virt).1 =
      ((decode env.bigEndian (bytesAt f (fileOffset env virt))).page_frame_number
          * env.pageSize % 2 ^ 64)
        ||| (virt &&& (env.pageSize - 1)) ∧
    ((decode env.bigEndian (bytesAt f (fileOffset env virt))).page_frame_number
        * env.pageSize < 2 ^ 64 →
      (virtual_to_physical_address env virt).1 =
        (decode env.bigEndian (bytesAt f (fileOffset env virt))).page_frame_number
          * env.pageSize ||| (virt &&& (env.pageSize - 1))) := by
  rw [resolvePresent_eq env virt f hf hs hlen hp]
  exact ⟨rfl, fun hfit => by rw [Nat.mod_eq_of_lt hfit]⟩

/-- Witness for C1: page_size 4096, page_frame_number 0x123 and
virtual_address 0x456789 give physical address 0x123789. -/
theorem resident_physical_address_correct_witness :
    (virtual_to_physical_address envC1 0x456789).1 = 0x123789 := by
  have hoff : fileOffset envC1 0x456789 = 8880 := by
    rw [fileOffset, show envC1.pageSize = 4096 from rfl, PAGEMAP_ENTRY]
    norm_num
  have hbytes : bytesAt fileC1 8880 = recC1 := by
    rw [bytesAt, fileC1, List.drop_left' (by rw [List.length_replicate])]
    rfl
  have hlen : fileOffset envC1 0x456789 + PAGEMAP_ENTRY ≤ fileC1.length := by
    rw [hoff, fileC1, List.length_append, List.length_replicate]
    decide
  have hp : (decode envC1.bigEndian (bytesAt fileC1 (fileOffset envC1 0x456789))).present
      = true := by
    rw [hoff, hbytes]
    decide
  have h := resident_physical_address_correct envC1 0x456789 fileC1 rfl rfl hlen hp
  rw [h.1, hoff, hbytes]
  decide

/-- C10: on the page-not-present path (bit 63 clear) the function
returns the raw assembled 64-bit value itself unchanged, not 0 and not
a distinguished marker, so the return value is 0 only for an all-zero
record; a non-resident entry with nonzero low bits is indistinguishable
at the return-value interface from a resolved physical address. -/
theorem not_present_returns_raw (env : Env) (virt : Nat) (f : List Nat)
    (hf : env.pagemapFile = some f)
    (hs : env.seekOk (fileOffset env virt) = true)
    (hlen : fileOffset env virt + PAGEMAP_ENTRY ≤ f.length)
    (hb : ∀ b ∈ bytesAt f (fileOffset env virt), b < 256)
    (hbit : (assembleVal env.bigEndian (bytesAt f (fileOffset env virt))).testBit 63 = false) :
    (virtual_to_physical_address env virt).1
      = assembleVal env.bigEndian (bytesAt f (fileOffset env virt)) ∧
    ((virtual_to_physical_address env virt).1 = 0 ↔
      ∀ b ∈ bytesAt f (fileOffset env virt), b = 0) := by
  have hz : assembleVal env.bigEndian (bytesAt f (fileOffset env virt)) &&& 2 ^ 63 = 0 := by
    have h := and_two_pow_ne_zero (assembleVal env.bigEndian (bytesAt f (fileOffset env virt))) 63
    rw [hbit] at h
    simpa using h
  have hp : (decode env.bigEndian (bytesAt f (fileOffset env virt))).present = false := by
    simp only [decode, one_shiftLeft_63]
    rw [hz]
    decide
  rw [resolveNotPresent_eq env virt f hf hs hlen hp]
  exact ⟨rfl,
    assembleVal_eq_zero_iff env.bigEndian (bytesAt f (fileOffset env virt))
      (bytesAt_length_le f (fileOffset env virt)) hb⟩

/-- Witness for C10: the non-resident record with value 0x2A makes the
function return 0x2A (nonzero), the very value a genuine resident
resolution (present record, frame 0, in-page offset 0x2A) also
returns. -/
theorem not_present_returns_raw_witness :
    (virtual_to_physical_address envSwapRecord 0).1 = 0x2A ∧
    (virtual_to_physical_address envSwapRecord 0).1 ≠ 0 ∧
    (virtual_to_physical_address envPresentZero 0x2A).1 = 0x2A := by
  have h := not_present_returns_raw envSwapRecord 0 swapRec rfl rfl (by decide) (by decide)
    (by decide)
  refine ⟨by rw [h.1]; decide, by rw [h.1]; decide, by decide⟩

/-- On every path where the pagemap file was opened, the fseek call is
made with the computed file offset. -/
theorem sought_mem (env : Env) (virt : Nat) (f : List Nat)
    (hf : env.pagemapFile = some f) :
    Event.sought (fileOffset env virt) ∈ (virtual_to_physical_address env virt).2 := by
  by_cases hs : env.seekOk (fileOffset env virt) = true
  · by_cases hlen : fileOffset env virt + PAGEMAP_ENTRY ≤ f.length
    · by_cases hp : (decode env.bigEndian (bytesAt f (fileOffset env virt))).present = true
      · rw [resolvePresent_eq env virt f hf hs hlen hp]
        simp
      · rw [resolveNotPresent_eq env virt f hf hs hlen (by simpa using hp)]
        simp
    · rw [resolveEOF_eq env virt f hf hs (by omega)]
      simp
  · rw [resolveSeekFail_eq env virt f hf (by simpa using hs)]
    simp

/-- C7: for every virtual address the resolver computes the byte offset
of the record as (virtual_address / page_size) * 8, the page size being
taken from the environment of the call, and seeks there; the 64-bit
reduction is the identity because a page size of at least 8 keeps the
offset below the address itself. -/
theorem file_offset_formula (env : Env) (virt : Nat) (f : List Nat)
    (hf : env.pagemapFile = some f)
    (hvirt : virt < 2 ^ 64) (hps : 8 ≤ env.pageSize) :
    Event.sought (virt / env.pageSize * 8) ∈ (virtual_to_physical_address env virt).2 := by
  have hofs : fileOffset env virt = virt / env.pageSize * 8 := by
    rw [fileOffset, PAGEMAP_ENTRY]
    apply Nat.mod_eq_of_lt
    calc virt / env.pageSize * 8
        ≤ virt / 8 * 8 := Nat.mul_le_mul_right 8 (Nat.div_le_div_left hps (by norm_num))
      _ ≤ virt := Nat.div_mul_le_self virt 8
      _ < 2 ^ 64 := hvirt
  rw [← hofs]
  exact sought_mem env virt f hf

/-- Witness for C7: on 4096-byte pages the record offset of virtual
address 0x456789 is 8880 and the resolver seeks there. -/
theorem file_offset_formula_witness :
    0x456789 / 4096 * 8 = 8880 ∧
    Event.sought (0x456789 / envC1.pageSize * 8)
      ∈ (virtual_to_physical_address envC1 0x456789).2 := by
  refine ⟨by norm_num, ?_⟩
  exact file_offset_formula envC1 0x456789 fileC1 rfl (by norm_num) (by decide)

/-- A list extended with one final element has that element as its
last. -/
theorem getLast?_append_singleton (l : List Event) (x : Event) :
    (l ++ [x]).getLast? = some x := by
  simp

/-- A list extended with two final elements has the second as its
last. -/
theorem getLast?_append_pair (l : List Event) (x y : Event) :
    (l ++ [x, y]).getLast? = some y := by
  rw [List.getLast?_append_cons]
  rfl

/-- C8: on every exit path taken after the pagemap file was opened the
file is closed before the function returns: the last observable event
of the call is the fclose. -/
theorem fclose_on_every_path (env : Env) (virt : Nat) (f : List Nat)
    (hf : env.pagemapFile = some f) :
    ((virtual_to_physical_address env virt).2).getLast? = some Event.fclosed := by
  by_cases hs : env.seekOk (fileOffset env virt) = true
  · by_cases hlen : fileOffset env virt + PAGEMAP_ENTRY ≤ f.length
    · by_cases hp : (decode env.bigEndian (bytesAt f (fileOffset env virt))).present = true
      · rw [resolvePresent_eq env virt f hf hs hlen hp]
        exact getLast?_append_singleton _ _
      · rw [resolveNotPresent_eq env virt f hf hs hlen (by simpa using hp)]
        exact getLast?_append_pair _ _ _
    · rw [resolveEOF_eq env virt f hf hs (by omega)]
      exact getLast?_append_pair _ _ _
  · rw [resolveSeekFail_eq env virt f hf (by simpa using hs)]
    rfl

/-- Witness for C8: with the all-zero one-record pagemap file the last
event of the call is the fclose. -/
theorem fclose_on_every_path_witness :
    ((virtual_to_physical_address envZeroRecord 0).2).getLast? = some Event.fclosed :=
  fclose_on_every_path envZeroRecord 0 zeroRec rfl

/-- Counterexample for C5: when the mapping file cannot be opened the
function returns the plain value 0, the exact value a genuine resident
resolution also produces (present record, frame number 0, page-aligned
address), so the open failure is not a distinct typed
ResourceUnavailable error at the return interface: the two outcomes are
indistinguishable by return value. -/
theorem open_failure_not_distinct :
    (virtual_to_physical_address envOpenFail 0).1 = 0 ∧
    (decode envPresentZero.bigEndian presentZeroRec).present = true ∧
    (virtual_to_physical_address envPresentZero 0).1 = 0 := by
  refine ⟨rfl, by decide, by decide⟩

/-- C5 amended: when the mapping file cannot be opened the function
prints the message telling the operator to run as root and returns 0
for every virtual address, without any resident computation; the 0 is
an in-band sentinel shared with genuine resolutions, not a distinct
typed error. -/
theorem open_failure_returns_zero (env : Env) (virt : Nat)
    (hf : env.pagemapFile = none) :
    (virtual_to_physical_address env virt).1 = 0 ∧
    (virtual_to_physical_address env virt).2 = [Event.printed openFailMsg] := by
  rw [resolveOpenFail_eq env virt hf]
  exact ⟨rfl, rfl⟩

/-- Witness for C5 amended: with an unopenable mapping file the call
returns 0 and prints only the run-as-root message. -/
theorem open_failure_returns_zero_witness :
    (virtual_to_physical_address envOpenFail 123).1 = 0 ∧
    (virtual_to_physical_address envOpenFail 123).2 = [Event.printed openFailMsg] :=
  open_failure_returns_zero envOpenFail 123 rfl

/-- Counterexample for C6: when end-of-data is reached before 8 bytes
the function returns the plain value 0, the same value the
page-not-present path returns for an all-zero record, so end-of-mapping
is not a typed EndOfMapping error distinct from the not-resident
outcome at the return interface. -/
theorem eof_not_distinct :
    (virtual_to_physical_address envShortFile 0).1 = 0 ∧
    Event.gotEOF ∈ (virtual_to_physical_address envShortFile 0).2 ∧
    (virtual_to_physical_address envZeroRecord 0).1 = 0 ∧
    (decode envZeroRecord.bigEndian zeroRec).present = false := by
  refine ⟨by decide, by decide, by decide, by decide⟩

/-- C6 amended: the resolver attempts to read exactly 8 bytes per
record (when the data is there it reads exactly 8 and sees no EOF); if
end-of-data is reached before 8 bytes are read it closes the file and
returns 0 rather than a typed EndOfMapping error, a value shared with
the not-resident return for an all-zero record. -/
theorem eof_returns_zero (env : Env) (virt : Nat) (f : List Nat)
    (hf : env.pagemapFile = some f)
    (hs : env.seekOk (fileOffset env virt) = true) :
    (f.length < fileOffset env virt + PAGEMAP_ENTRY →
      (virtual_to_physical_address env virt).1 = 0 ∧
      Event.gotEOF ∈ (virtual_to_physical_address env virt).2 ∧
      ((virtual_to_physical_address env virt).2).getLast? = some Event.fclosed) ∧
    (fileOffset env virt + PAGEMAP_ENTRY ≤ f.length →
      ((virtual_to_physical_address env virt).2).countP isGotByte = 8 ∧
      Event.gotEOF ∉ (virtual_to_physical_address env virt).2) := by
  constructor
  · intro hshort
    rw [resolveEOF_eq env virt f hf hs hshort]
    refine ⟨rfl, by simp, getLast?_append_pair _ _ _⟩
  · intro hlen
    have hblen : (bytesAt f (fileOffset env virt)).length = 8 := by
      rw [bytesAt]
      simp only [PAGEMAP_ENTRY] at hlen
      simp only [List.length_take, List.length_drop, PAGEMAP_ENTRY]
      omega
    have hcount : ((bytesAt f (fileOffset env virt)).map Event.gotByte).countP isGotByte
        = 8 := by
      rw [List.countP_eq_length.mpr, List.length_map, hblen]
      intro a ha
      rw [List.mem_map] at ha
      obtain ⟨b, -, rfl⟩ := ha
      rfl
    by_cases hp : (decode env.bigEndian (bytesAt f (fileOffset env virt))).present = true
    · rw [resolvePresent_eq env virt f hf hs hlen hp]
      constructor
      · simp [List.countP_append, hcount, isGotByte, List.countP_cons]
      · simp
    · rw [resolveNotPresent_eq env virt f hf hs hlen (by simpa using hp)]
      constructor
      · simp [List.countP_append, hcount, isGotByte, List.countP_cons]
      · simp

/-- Witness for C6 amended: on the 3-byte pagemap file the call hits
EOF, returns 0 and closes the file last. -/
theorem eof_returns_zero_witness :
    (virtual_to_physical_address envShortFile 0).1 = 0 ∧
    Event.gotEOF ∈ (virtual_to_physical_address envShortFile 0).2 ∧
    ((virtual_to_physical_address envShortFile 0).2).getLast? = some Event.fclosed := by
  have h := eof_returns_zero envShortFile 0 shortFile rfl rfl
  exact h.1 (by decide)

/-- C9: the interactive driver reads hexadecimal virtual addresses
repeatedly from the input stream; it terminates once a zero value is
read, exiting with code 0 regardless of any further input, and it
terminates when end-of-input is reached, via the failed scanf assert
(an abort, not a code-0 exit); code 0 is the exit status of the normal
zero-sentinel termination. -/
theorem driver_termination (pre post inputs : List Nat)
    (hpre : 0 ∉ pre) (hinp : 0 ∉ inputs) :
    driverLoop (pre ++ 0 :: post) = DriverExit.exited 0 ∧
    driverLoop inputs = DriverExit.aborted := by
  have h1 : ∀ l : List Nat, 0 ∉ l → driverLoop (l ++ 0 :: post) = DriverExit.exited 0 := by
    intro l
    induction l with
    | nil => intro _; simp [driverLoop]
    | cons v vs ih =>
      intro hm
      simp only [List.mem_cons, not_or] at hm
      simp only [List.cons_append, driverLoop]
      rw [if_neg (fun h => hm.1 h.symm)]
      exact ih hm.2
  have h2 : ∀ l : List Nat, 0 ∉ l → driverLoop l = DriverExit.aborted := by
    intro l
    induction l with
    | nil => intro _; rfl
    | cons v vs ih =>
      intro hm
      simp only [List.mem_cons, not_or] at hm
      simp only [driverLoop]
      rw [if_neg (fun h => hm.1 h.symm)]
      exact ih hm.2
  exact ⟨h1 pre hpre, h2 inputs hinp⟩

/-- Witness for C9: the input values 0x456789, 1, 0, 5 make the driver
exit with code 0 at the zero sentinel; the input values 3, 4 end
without a zero, so the driver aborts at end-of-input. -/
theorem driver_termination_witness :
    driverLoop [0x456789, 1, 0, 5] = DriverExit.exited 0 ∧
    driverLoop [3, 4] = DriverExit.aborted := by
  simpa using driver_termination [0x456789, 1] [5] [3, 4] (by decide) (by decide)
